import Mathlib

/-!
Shallow embedding of the tiktoken-rs tokenizer front end.

Sources embedded: `src/core.rs` (the `Encoding` type and its public
interface), `src/model.rs` (error kinds and the model tables),
`src/openai_public.rs` (the five registered encoding constructors) and
`src/load.rs` (the vocabulary loaders).

Modelling conventions:
* Rust `HashMap` / `FxHashMap` values are association lists
  (`List (key × value)`); `alookup` is `get`.  Maps are built so that the
  newest binding sits in front, which together with first-match lookup
  reproduces the overwrite semantics of `insert` / `collect`.
* Rust `HashSet<&str>` values are `List String`, compared by membership.
* Byte sequences (`Vec<u8>`) are `List Nat`, machine integers are `Nat`
  (no arithmetic in the embedded code can overflow a `usize` except the
  `n_vocab - 1` subtraction in `Encoding::new`, which is modelled
  explicitly).
* Fallible Rust functions returning `Result` become `Except EncodeError`;
  functions that can `panic!` / fail an `assert!` return `Option` or the
  dedicated `NewResult` type, where `none` / `.panic` is the abort.
* The `CoreBPE` struct lives in a file of this repository that is not part
  of the given sources; only its interface is visible from `src/core.rs`.
  Its derived lookup tables and abort-class construction checks are
  modelled from the spec (sections 3, 4.1 and 7), and its three compiled
  native encode routines are abstracted as function fields supplied at
  construction time.
* `fancy_regex` and `serde_json` are external.  Compiling the
  pretokenizer pattern is abstracted as a function parameter returning
  `Except` (`compileRegexFn`), and JSON parsing as a function parameter
  returning the minimal view `JsonValue` that the loader observes.  The
  only regex the embedded code builds itself is the alternation of
  regex-escaped special-token literals (`special_token_regex`); its
  leftmost search is modelled by `scanSpecial`, a literal-by-literal
  substring scan.
-/

/-! ## Generic association-list and helper machinery -/

abbrev ByteSeq := List Nat

/-- First-match lookup on an association list; models `HashMap::get` for
maps whose newest binding is in front. -/
def alookup {α β : Type} [DecidableEq α] : List (α × β) → α → Option β
  | [], _ => none
  | (k, v) :: rest, key => if key = k then some v else alookup rest key

/-- Models `HashMap::insert`: the new binding shadows any older one. -/
def hmInsert {α β : Type} (m : List (α × β)) (k : α) (v : β) : List (α × β) :=
  (k, v) :: m

/-- Models collecting an iterator of pairs into a `HashMap`: later pairs
overwrite earlier ones, so with first-match lookup the list is reversed. -/
def hmCollect {α β : Type} (l : List (α × β)) : List (α × β) :=
  l.reverse

/-- Models `HashMap::remove`: drop every binding of the key. -/
def hmRemove {α β : Type} [DecidableEq α] (m : List (α × β)) (k : α) : List (α × β) :=
  m.filter (fun p => p.1 != k)

/-- The maximum of a list of `Nat`s, `0` for the empty list: models
`values().max().copied().unwrap_or_default()`. -/
def listMax (l : List Nat) : Nat :=
  l.foldl max 0

/-- UTF-8 encoding of a single character (the standard 1-4 byte scheme). -/
def charUtf8 (c : Char) : ByteSeq :=
  let n := c.toNat
  if n < 0x80 then [n]
  else if n < 0x800 then [0xC0 + n / 64, 0x80 + n % 64]
  else if n < 0x10000 then [0xE0 + n / 4096, 0x80 + (n / 64) % 64, 0x80 + n % 64]
  else [0xF0 + n / 262144, 0x80 + (n / 4096) % 64, 0x80 + (n / 64) % 64, 0x80 + n % 64]

/-- UTF-8 bytes of a string; models `str::as_bytes` / `String::into_bytes`. -/
def strToBytes (s : String) : ByteSeq :=
  (s.toList.map charUtf8).flatten

/-- Boolean substring test on character lists: `needle` occurs contiguously
inside the second argument. -/
def substrCharsB (needle : List Char) : List Char → Bool
  | [] => needle.isEmpty
  | c :: rest => needle.isPrefixOf (c :: rest) || substrCharsB needle rest

/-- `needle` occurs as a contiguous substring of `hay`. -/
def containsSubstr (needle hay : String) : Bool :=
  substrCharsB needle.toList hay.toList

/-- Models searching a text for the leftmost match of the alternation regex
`(lit1|lit2|…)` built from regex-escaped literals (`special_token_regex`
followed by `Regex::captures` in `src/core.rs`): scan positions left to
right and report the first literal that matches there.  Compiling an
alternation of escaped literals cannot fail, so the `Result` wrapper of
`special_token_regex` collapses. -/
def scanSpecial (lits : List String) : List Char → Option String
  | [] => lits.find? (fun l => l.toList.isEmpty)
  | c :: rest =>
    match lits.find? (fun l => l.toList.isPrefixOf (c :: rest)) with
    | some l => some l
    | none => scanSpecial lits rest

instance {ε α : Type} [DecidableEq ε] [DecidableEq α] : DecidableEq (Except ε α) := fun x y =>
  match x, y with
  | .error a, .error b =>
    if h : a = b then isTrue (by rw [h]) else isFalse (fun hc => by cases hc; exact h rfl)
  | .ok a, .ok b =>
    if h : a = b then isTrue (by rw [h]) else isFalse (fun hc => by cases hc; exact h rfl)
  | .error _, .ok _ => isFalse (fun hc => by cases hc)
  | .ok _, .error _ => isFalse (fun hc => by cases hc)

/-- Models the `for` loop of `src/core.rs::encode_batch` /
`decode_tokens_bytes`: push each `item?`, so the overall result is `Ok` of
the list when every item succeeds and otherwise the first error in input
order. -/
def collectResults {ε α : Type} : List (Except ε α) → Except ε (List α)
  | [] => .ok []
  | x :: rest =>
    match x with
    | .error e => .error e
    | .ok v =>
      match collectResults rest with
      | .error e => .error e
      | .ok vs => .ok (v :: vs)

/-! ## Data model (src/model.rs and src/core.rs) -/

/-- Error kinds of `src/model.rs::EncodeError`.  Payloads that are foreign
error values in Rust (`fancy_regex::Error`, `FromUtf8Error`, `io::Error`,
`reqwest::Error`) are carried as opaque message strings. -/
inductive EncodeError : Type where
  | regexError (msg : String)
  | tokenNotFoundError (token : Nat)
  | tokenEncodeError (piece : ByteSeq)
  | specialTokenError (token : String)
  | convertStringError (msg : String)
  | modelNameError (name : String)
  | encodingNameError (name : String)
  | ioError (msg : String)
  | httpError (msg : String)
  deriving DecidableEq

/-- `src/model.rs::AllowedSpecial` (a sentinel `All` or an explicit set). -/
inductive AllowedSpecial : Type where
  | all
  | allowed (tokens : List String)

/-- `src/model.rs::DisallowedSpecial`. -/
inductive DisallowedSpecial : Type where
  | all
  | disallowed (tokens : List String)

/-- Modelled from the spec: the three compiled native encode routines of
`CoreBPE` (`_encode_ordinary_native`, `_encode_native`,
`_encode_unstable_native`).  `CoreBPE` is declared in a file of the
repository outside the given sources; `src/core.rs` only calls these
routines, so they are abstracted as total functions (spec section 4.4:
they cannot fail).  `_encode_native` also returns the count of processed
special tokens, which `src/core.rs` discards; only the token list is kept.
`compileRegexFn` is the outcome of compiling the pretokenizer pattern
with the external `fancy_regex` engine, whose `Err` is what `CoreBPE::new`
can return and `Encoding::new` propagates with `?`. -/
structure CoreBPEFns : Type where
  encodeOrdinaryNativeFn : String → List Nat
  encodeNativeFn : String → List String → List Nat
  encodeUnstableNativeFn : String → List String → List Nat × List (List Nat)
  compileRegexFn : String → Except EncodeError Unit

/-- Modelled from the spec: the `CoreBPE` struct (outside the given
sources).  Spec section 3 (components C1/C2) fixes its data: `encoder`
maps byte-sequences to ranks, `decoder` is its inverse,
`special_tokens_encoder` / `special_tokens_decoder` are the bidirectional
special-token maps (literals stored as UTF-8 bytes on the decoder side),
and `sorted_token_bytes` is the lexicographically sorted key list. -/
structure CoreBPE : Type where
  encoder : List (ByteSeq × Nat)
  specialTokensEncoder : List (String × Nat)
  decoder : List (Nat × ByteSeq)
  specialTokensDecoder : List (Nat × ByteSeq)
  sortedTokenBytes : List ByteSeq
  fns : CoreBPEFns

/-- `src/core.rs::EncodingParam`. -/
structure EncodingParam : Type where
  name : String
  patStr : String
  mergeableRanks : List (ByteSeq × Nat)
  specialTokens : List (String × Nat)
  explicitNVocab : Option Nat

/-- `src/core.rs::Encoding`. -/
structure Encoding : Type where
  name : String
  patStr : String
  specialTokens : List (String × Nat)
  maxTokenValue : Nat
  coreBpe : CoreBPE

/-- Lexicographic comparison of byte-sequences (used only to build
`sorted_token_bytes`). -/
def byteSeqLe : ByteSeq → ByteSeq → Bool
  | [], _ => true
  | _ :: _, [] => false
  | a :: as, b :: bs => if a < b then true else if a = b then byteSeqLe as bs else false

def insertSortedByteSeq (x : ByteSeq) : List ByteSeq → List ByteSeq
  | [] => [x]
  | y :: ys => if byteSeqLe x y then x :: y :: ys else y :: insertSortedByteSeq x ys

def sortByteSeqs (l : List ByteSeq) : List ByteSeq :=
  l.foldr insertSortedByteSeq []

/-- Modelled from the spec: `CoreBPE::new` (outside the given sources).
Construction asserts its invariants as abort-class checks before
accepting a table (spec sections 3 C1, 4.1 and 7): every single byte
`0x00..0xFF` must appear as a vocabulary key, and no rank may collide
between the vocabulary and the special-token table; a violation aborts
(`none`).  Compiling the pretokenizer regex can fail recoverably — the
external engine's outcome is `fns.compileRegexFn`, and its `Err` is the
`Result` that `src/core.rs::Encoding::new` propagates with `?`.  On
success it derives the decoder views from the two rank maps and sorts the
vocabulary keys. -/
def CoreBPE.new (mergeableRanks : List (ByteSeq × Nat)) (specialTokens : List (String × Nat))
    (patStr : String) (fns : CoreBPEFns) : Option (Except EncodeError CoreBPE) :=
  if ¬ ((List.range 256).all (fun b => (alookup mergeableRanks [b]).isSome)) then
    none
  else if mergeableRanks.any (fun p => specialTokens.any (fun q => q.2 == p.2)) then
    none
  else
    match fns.compileRegexFn patStr with
    | .error e => some (.error e)
    | .ok _ =>
      some (.ok
        { encoder := mergeableRanks
          specialTokensEncoder := specialTokens
          decoder := hmCollect (mergeableRanks.map (fun p => (p.2, p.1)))
          specialTokensDecoder := hmCollect (specialTokens.map (fun p => (p.2, strToBytes p.1)))
          sortedTokenBytes := sortByteSeqs (mergeableRanks.map Prod.fst)
          fns := fns })

/-- Result of `src/core.rs::Encoding::new`: the `assert_eq!` checks (and
the `usize` underflow of `n_vocab - 1` when `n_vocab = 0`) abort the
process, which is distinguished from returning a recoverable `Err`. -/
inductive NewResult : Type where
  | panic
  | err (e : EncodeError)
  | ok (enc : Encoding)

/-- The `max(...)` expression of `src/core.rs::Encoding::new` computing
`max_token_value`. -/
def encodingMaxTokenValue (param : EncodingParam) : Nat :=
  max (listMax (param.mergeableRanks.map Prod.snd))
    (listMax (param.specialTokens.map Prod.snd))

/-- The construction code of `src/core.rs::Encoding::new` after its
assertions: build the `CoreBPE` (propagating its error with `?`) and
assemble the `Encoding` record. -/
def Encoding.newBuild (param : EncodingParam) (fns : CoreBPEFns)
    (maxTokenValue : Nat) : NewResult :=
  match CoreBPE.new param.mergeableRanks param.specialTokens param.patStr fns with
  | none => .panic
  | some (.error e) => .err e
  | some (.ok coreBpe) =>
    .ok
      { name := param.name
        patStr := param.patStr
        specialTokens := param.specialTokens
        maxTokenValue := maxTokenValue
        coreBpe := coreBpe }

/-- `src/core.rs::Encoding::new`.  With `explicit_n_vocab` supplied it
first asserts `mergeable_ranks.len() + special_tokens.len() == n_vocab`,
then asserts `max_token_value == n_vocab - 1`; in Rust the second
assertion underflows (and hence also aborts) when `n_vocab = 0`, which is
modelled by an explicit branch because `Nat` subtraction would not
abort. -/
def Encoding.new (param : EncodingParam) (fns : CoreBPEFns) : NewResult :=
  match param.explicitNVocab with
  | some nVocab =>
    if param.mergeableRanks.length + param.specialTokens.length ≠ nVocab then .panic
    else if nVocab = 0 then .panic
    else if encodingMaxTokenValue param ≠ nVocab - 1 then .panic
    else Encoding.newBuild param fns (encodingMaxTokenValue param)
  | none => Encoding.newBuild param fns (encodingMaxTokenValue param)

/-! ## Public interface of Encoding (src/core.rs) -/

/-- `src/core.rs::Encoding::special_tokens_set`: the key set of the
special-token map. -/
def Encoding.specialTokensSet (enc : Encoding) : List String :=
  enc.specialTokens.map Prod.fst

/-- Resolution of the `allowed_special` argument, as in the first `match`
of `src/core.rs::Encoding::encode` (the same block appears verbatim in
`encode_with_unstable`). -/
def Encoding.allowedSpecialSet (enc : Encoding) : AllowedSpecial → List String
  | .all => enc.specialTokensSet
  | .allowed tokens => tokens

/-- Resolution of the `disallowed_special` argument, as in the second
`match` of `src/core.rs::Encoding::encode` (`All` resolves to the set
difference of the full special-token key set and the allowed set; the
same block appears verbatim in `encode_with_unstable`). -/
def Encoding.disallowedSpecialSet (enc : Encoding) (allowedSpecial : AllowedSpecial) :
    DisallowedSpecial → List String
  | .all => enc.specialTokensSet.filter
      (fun t => !((enc.allowedSpecialSet allowedSpecial).contains t))
  | .disallowed tokens => tokens

/-- `src/core.rs::Encoding::encode_ordinary`. -/
def Encoding.encodeOrdinary (enc : Encoding) (text : String) : List Nat :=
  enc.coreBpe.fns.encodeOrdinaryNativeFn text

/-- `src/core.rs::Encoding::encode_ordinary_batch` (rayon `par_iter`
preserves input order, so it is a `map`). -/
def Encoding.encodeOrdinaryBatch (enc : Encoding) (texts : List String) : List (List Nat) :=
  texts.map (fun txt => enc.encodeOrdinary txt)

/-- `src/core.rs::Encoding::encode`: resolve the two special-token sets;
if the disallowed set is non-empty search the text with the alternation
regex of its literals and fail with `SpecialTokenError` on a match;
otherwise delegate to `CoreBPE::_encode_native` and keep the token
list. -/
def Encoding.encode (enc : Encoding) (text : String) (allowedSpecial : AllowedSpecial)
    (disallowedSpecial : DisallowedSpecial) : Except EncodeError (List Nat) :=
  match
    (if (enc.disallowedSpecialSet allowedSpecial disallowedSpecial).isEmpty then none
     else scanSpecial (enc.disallowedSpecialSet allowedSpecial disallowedSpecial)
       text.toList) with
  | some cap => .error (.specialTokenError cap)
  | none => .ok (enc.coreBpe.fns.encodeNativeFn text (enc.allowedSpecialSet allowedSpecial))

/-- `src/core.rs::Encoding::encode_batch`: encode every element (rayon
keeps input order), then push each `item?` so the first error in input
order surfaces. -/
def Encoding.encodeBatch (enc : Encoding) (texts : List String)
    (allowedSpecial : AllowedSpecial) (disallowedSpecial : DisallowedSpecial) :
    Except EncodeError (List (List Nat)) :=
  collectResults (texts.map (fun txt => enc.encode txt allowedSpecial disallowedSpecial))

/-- `src/core.rs::Encoding::encode_with_unstable`: identical pre-check to
`encode`, then delegates to `CoreBPE::_encode_unstable_native` (the
completions are re-collected by an identity `map` in the source). -/
def Encoding.encodeWithUnstable (enc : Encoding) (text : String)
    (allowedSpecial : AllowedSpecial) (disallowedSpecial : DisallowedSpecial) :
    Except EncodeError (List Nat × List (List Nat)) :=
  match
    (if (enc.disallowedSpecialSet allowedSpecial disallowedSpecial).isEmpty then none
     else scanSpecial (enc.disallowedSpecialSet allowedSpecial disallowedSpecial)
       text.toList) with
  | some cap => .error (.specialTokenError cap)
  | none =>
    .ok ((enc.coreBpe.fns.encodeUnstableNativeFn text (enc.allowedSpecialSet allowedSpecial)).1,
      (enc.coreBpe.fns.encodeUnstableNativeFn text (enc.allowedSpecialSet allowedSpecial)).2.map
        (fun seq => seq))

/-- `src/core.rs::Encoding::encode_single_token`: look the piece up in the
vocabulary encoder; otherwise, when the piece is valid UTF-8, look the
decoded string up among the special tokens (modelled byte-wise: a special
token matches exactly when its UTF-8 bytes equal the piece); otherwise
fail with `TokenEncodeError` carrying the piece. -/
def Encoding.encodeSingleToken (enc : Encoding) (piece : ByteSeq) : Except EncodeError Nat :=
  match alookup enc.coreBpe.encoder piece with
  | some token => .ok token
  | none =>
    match enc.coreBpe.specialTokensEncoder.find? (fun kv => strToBytes kv.1 == piece) with
    | some kv => .ok kv.2
    | none => .error (.tokenEncodeError piece)

/-- `src/core.rs::Encoding::decode_single_token_bytes`: vocabulary decoder
first, then special-token decoder, else `TokenNotFoundError`. -/
def Encoding.decodeSingleTokenBytes (enc : Encoding) (token : Nat) :
    Except EncodeError ByteSeq :=
  match alookup enc.coreBpe.decoder token with
  | some bytes => .ok bytes
  | none =>
    match alookup enc.coreBpe.specialTokensDecoder token with
    | some bytes => .ok bytes
    | none => .error (.tokenNotFoundError token)

/-- `src/core.rs::Encoding::decode_tokens_bytes`: decode every token
(rayon keeps input order), then push each `item?`. -/
def Encoding.decodeTokensBytes (enc : Encoding) (tokens : List Nat) :
    Except EncodeError (List ByteSeq) :=
  collectResults (tokens.map (fun token => enc.decodeSingleTokenBytes token))

/-- `src/core.rs::Encoding::eot_token`. -/
def Encoding.eotToken (enc : Encoding) : Option Nat :=
  alookup enc.specialTokens "<|endoftext|>"

/-- `src/core.rs::Encoding::n_vocab`. -/
def Encoding.nVocab (enc : Encoding) : Nat :=
  enc.maxTokenValue + 1

/-! ## Model tables and encoding_for_model (src/model.rs, src/core.rs) -/

/-- `src/model.rs::MODEL_PREFIX_TO_ENCODING`, in source order.  The Rust
value is a `HashMap` iterated in unspecified order; no model name can
match more than one of the two prefixes (neither is a prefix of the
other), so a fixed order is observationally equivalent. -/
def MODEL_PREFIX_TO_ENCODING : List (String × String) :=
  [("gpt-4-", "cl100k_base"),
   ("gpt-3.5-turbo-", "cl100k_base")]

/-- `src/model.rs::MODEL_TO_ENCODING` (exact-match table). -/
def MODEL_TO_ENCODING : List (String × String) :=
  [("gpt-4", "cl100k_base"),
   ("gpt-3.5-turbo", "cl100k_base"),
   ("text-davinci-003", "p50k_base"),
   ("text-davinci-002", "p50k_base"),
   ("text-davinci-001", "r50k_base"),
   ("text-curie-001", "r50k_base"),
   ("text-babbage-001", "r50k_base"),
   ("text-ada-001", "r50k_base"),
   ("davinci", "r50k_base"),
   ("curie", "r50k_base"),
   ("babbage", "r50k_base"),
   ("ada", "r50k_base"),
   ("code-davinci-002", "p50k_base"),
   ("code-davinci-001", "p50k_base"),
   ("code-cushman-002", "p50k_base"),
   ("code-cushman-001", "p50k_base"),
   ("davinci-codex", "p50k_base"),
   ("cushman-codex", "p50k_base"),
   ("text-davinci-edit-001", "p50k_edit"),
   ("code-davinci-edit-001", "p50k_edit"),
   ("text-embedding-ada-002", "cl100k_base"),
   ("text-similarity-davinci-001", "r50k_base"),
   ("text-similarity-curie-001", "r50k_base"),
   ("text-similarity-babbage-001", "r50k_base"),
   ("text-similarity-ada-001", "r50k_base"),
   ("text-search-davinci-doc-001", "r50k_base"),
   ("text-search-curie-doc-001", "r50k_base"),
   ("text-search-babbage-doc-001", "r50k_base"),
   ("text-search-ada-doc-001", "r50k_base"),
   ("code-search-babbage-code-001", "r50k_base"),
   ("code-search-ada-code-001", "r50k_base"),
   ("gpt2", "gpt2")]

/-- Models `str::starts_with` on the character level. -/
def strStartsWith (s pre : String) : Bool :=
  pre.toList.isPrefixOf s.toList

/-- `src/core.rs::encoding_for_model`: exact match on `MODEL_TO_ENCODING`
first, then the prefix loop over `MODEL_PREFIX_TO_ENCODING`, else
`ModelNameError`.  `get_encoding` constructs the registered encoding by
fetching its vocabulary from the network; that whole call is abstracted
as the parameter `getEncoding`, so the function body is exactly the
name-resolution logic of the source. -/
def encodingForModel {α : Type} (getEncoding : String → Except EncodeError α)
    (modelName : String) : Except EncodeError α :=
  match alookup MODEL_TO_ENCODING modelName with
  | some encodingName => getEncoding encodingName
  | none =>
    match MODEL_PREFIX_TO_ENCODING.find? (fun pe => strStartsWith modelName pe.1) with
    | some pe => getEncoding pe.2
    | none => .error (.modelNameError modelName)

/-! ## Registered encoding constructors (src/openai_public.rs)

Each Rust constructor fetches its mergeable-ranks table from the network
via `src/load.rs`; the fetched table is the `mergeableRanks` parameter
here, every other field is literal in the source.  The pattern strings
use `\x27` for the apostrophe and `\x7b`/`\x7d` for braces. -/

def ENCODING_NAMES : List String :=
  ["gpt2", "r50k_base", "p50k_base", "p50k_edit", "cl100k_base"]

def gpt2 (mergeableRanks : List (ByteSeq × Nat)) : EncodingParam :=
  { name := "gpt2"
    patStr := "\x27s|\x27t|\x27re|\x27ve|\x27m|\x27ll|\x27d| ?\\p{L}+| ?\\p{N}+| ?[^\\s\\p{L}\\p{N}]+|\\s+(?!\\S)|\\s+"
    mergeableRanks := mergeableRanks
    specialTokens := [("<|endoftext|>", 50256)]
    explicitNVocab := some 50257 }

def r50k_base (mergeableRanks : List (ByteSeq × Nat)) : EncodingParam :=
  { name := "r50k_base"
    patStr := "\x27s|\x27t|\x27re|\x27ve|\x27m|\x27ll|\x27d| ?\\p{L}+| ?\\p{N}+| ?[^\\s\\p{L}\\p{N}]+|\\s+(?!\\S)|\\s+"
    mergeableRanks := mergeableRanks
    specialTokens := [("<|endoftext|>", 50256)]
    explicitNVocab := some 50257 }

def p50k_base (mergeableRanks : List (ByteSeq × Nat)) : EncodingParam :=
  { name := "p50k_base"
    patStr := "\x27s|\x27t|\x27re|\x27ve|\x27m|\x27ll|\x27d| ?\\p{L}+| ?\\p{N}+| ?[^\\s\\p{L}\\p{N}]+|\\s+(?!\\S)|\\s+"
    mergeableRanks := mergeableRanks
    specialTokens := [("<|endoftext|>", 50256)]
    explicitNVocab := some 50281 }

def p50k_edit (mergeableRanks : List (ByteSeq × Nat)) : EncodingParam :=
  { name := "p50k_edit"
    patStr := "\x27s|\x27t|\x27re|\x27ve|\x27m|\x27ll|\x27d| ?\\p{L}+| ?\\p{N}+| ?[^\\s\\p{L}\\p{N}]+|\\s+(?!\\S)|\\s+"
    mergeableRanks := mergeableRanks
    specialTokens :=
      [("<|endoftext|>", 50256),
       ("<|fim_prefix|>", 50281),
       ("<|fim_middle|>", 50282),
       ("<|fim_suffix|>", 50283)]
    explicitNVocab := none }

def cl100k_base (mergeableRanks : List (ByteSeq × Nat)) : EncodingParam :=
  { name := "cl100k_base"
    patStr := "(?i:\x27s|\x27t|\x27re|\x27ve|\x27m|\x27ll|\x27d)|[^\\r\\n\\p{L}\\p{N}]?\\p{L}+|\\p{N}\x7b1,3\x7d| ?[^\\s\\p{L}\\p{N}]+[\\r\\n]*|\\s*[\\r\\n]+|\\s+(?!\\S)|\\s+"
    mergeableRanks := mergeableRanks
    specialTokens :=
      [("<|endoftext|>", 100257),
       ("<|fim_prefix|>", 100258),
       ("<|fim_middle|>", 100259),
       ("<|fim_suffix|>", 100260),
       ("<|endofprompt|>", 100276)]
    explicitNVocab := none }

/-! ## Vocabulary loaders (src/load.rs)

`read_file_cached` performs network and file-system I/O; its outcome is
passed in as an `Except EncodeError String` parameter.  The base64 decoder
of the `base64ct` crate is likewise passed in as a function returning
`Option` (`none` models the `unwrap` panic on malformed input). -/

/-- Splitting a character list at every newline (the character-level
equivalent of `String::split` with separator `'\n'`). -/
def splitLinesChars : List Char → List (List Char)
  | [] => [[]]
  | c :: rest =>
    if c = '\n' then [] :: splitLinesChars rest
    else
      match splitLinesChars rest with
      | [] => [[c]]
      | l :: ls => (c :: l) :: ls

/-- Models `str::lines`: split on a newline and drop one trailing empty
piece (a final newline does not produce an empty line; `\r` handling is
irrelevant to the embedded claims). -/
def rustLines (s : String) : List String :=
  let parts := (splitLinesChars s.toList).map (fun cs => String.mk cs)
  if parts.getLast? = some "" then parts.dropLast else parts

/-- Models `str::split_once` with a single-character separator: split at
the first occurrence, `none` when the separator does not occur. -/
def splitOnceChar (sep : Char) : List Char → Option (List Char × List Char)
  | [] => none
  | c :: rest =>
    if c = sep then some ([], rest)
    else
      match splitOnceChar sep rest with
      | some (pre, post) => some (c :: pre, post)
      | none => none

def splitOnce (sep : Char) (s : String) : Option (String × String) :=
  match splitOnceChar sep s.toList with
  | some (pre, post) => some (⟨pre⟩, ⟨post⟩)
  | none => none

/-- Models `str::parse::<usize>().ok()` on a 64-bit target: an optional
leading `+`, then at least one digit, and the value must fit in `usize`
(overflow is an `Err`, hence an `unwrap` panic). -/
def parseNat? (s : String) : Option Nat :=
  let digits := match s.toList with
    | '+' :: rest => rest
    | l => l
  if digits ≠ [] ∧ digits.all (fun c => c.isDigit) then
    if digits.foldl (fun acc c => acc * 10 + (c.toNat - 48)) 0 < 2 ^ 64 then
      some (digits.foldl (fun acc c => acc * 10 + (c.toNat - 48)) 0)
    else none
  else none

/-- `src/load.rs::load_tiktoken_bpe`: fetch the file (substituting empty
content on any error via `unwrap_or_default`), split each line at the
first space (lines without a space are silently dropped by the
`filter`), base64-decode the key and parse the rank, collecting into a
map; a malformed key or rank panics (`none`). -/
def load_tiktoken_bpe (b64Decode : String → Option ByteSeq)
    (fetched : Except EncodeError String) : Option (List (ByteSeq × Nat)) :=
  let contents := fetched.toOption.getD ""
  ((rustLines contents).filterMap (fun line => splitOnce ' ' line)).mapM
    (fun (bn : String × String) => do
      let key ← b64Decode bn.1
      let val ← parseNat? bn.2
      pure (key, val))
  |>.map hmCollect

/-- The three printable ranges pushed first by
`src/load.rs::data_gym_to_mergeable_bpe_ranks`:
`0x21..=0x7E`, `0xA1..0xAD`, `0xAE..=0xFF`. -/
def printableBytes : List Nat :=
  List.range' 0x21 0x5E ++ List.range' 0xA1 0xC ++ List.range' 0xAE 0x52

/-- The loop of `data_gym_to_mergeable_bpe_ranks` over `0..=255`: bytes not
yet present are appended to `rank_to_intbyte` and keyed in
`data_gym_byte_to_byte` by the code point `256 + n` (`char::from(b)` for
the printable bytes is the code point equal to the byte value, so the
map is keyed by code points as `Nat`). -/
def dataGymState : List Nat × List (Nat × Nat) × Nat :=
  (List.range 256).foldl
    (fun st b =>
      if st.1.contains b then st
      else (st.1 ++ [b], hmInsert st.2.1 (256 + st.2.2) b, st.2.2 + 1))
    (printableBytes, printableBytes.map (fun b => (b, b)), 0)

/-- `rank_to_intbyte` after the loop (asserted in the source to have
length 256). -/
def rankToIntbyte : List Nat :=
  dataGymState.1

/-- `data_gym_byte_to_byte`: code point → byte. -/
def dataGymByteToByte : List (Nat × Nat) :=
  dataGymState.2.1

/-- `src/load.rs::decode_data_gym`: map each character of the value
through the code-point dictionary; a missing character panics
(`none`). -/
def decode_data_gym (value : String) (dict : List (Nat × Nat)) : Option ByteSeq :=
  value.toList.mapM (fun c => alookup dict c.toNat)

/-- The single-byte tokens: `rank_to_intbyte` enumerated, each byte at its
index as rank, collected into a map. -/
def bpeRanksBase : List (ByteSeq × Nat) :=
  hmCollect (rankToIntbyte.enum.map (fun p => ([p.2], p.1)))

/-- Parsing of `vocab.bpe`: skip the first (header) line, split each
remaining line at the first space, silently dropping lines without
one. -/
def dataGymParseMerges (contents : String) : List (String × String) :=
  ((rustLines contents).drop 1).filterMap (fun line => splitOnce ' ' line)

/-- The merge loop of `data_gym_to_mergeable_bpe_ranks`: decode the two
halves of each pair (a character outside the dictionary panics), insert
their concatenation at the next rank `n`, incrementing `n`. -/
def dataGymAddMerges (m : List (ByteSeq × Nat)) (n : Nat) :
    List (String × String) → Option (List (ByteSeq × Nat))
  | [] => some m
  | pr :: rest =>
    match decode_data_gym pr.1 dataGymByteToByte, decode_data_gym pr.2 dataGymByteToByte with
    | some k1, some k2 => dataGymAddMerges (hmInsert m (k1 ++ k2) n) (n + 1) rest
    | _, _ => none

/-- The view of a parsed `serde_json::Value` that the loader observes:
either the top-level value is an object — a list of fields, each carrying
its key string and the result of `as_u64()` on its value — or it is some
other JSON value (on which `as_object().unwrap()` panics). -/
inductive JsonValue : Type where
  | object (fields : List (String × Option Nat))
  | nonObject
  deriving DecidableEq

/-- The `encoder.json` block of `src/load.rs::data_gym_to_mergeable_bpe_ranks`
(the prepared but unasserted cross-check): fetch the file (substituting
`"{}"` on error), parse it with `serde_json` (a parse failure is replaced
by the empty object via `unwrap_or`; the parser itself is the external
`jsonParse` parameter), then `as_object().unwrap()` — a panic (`none`)
when the parsed value is not an object — and build `encoder_json_loaded`
by decoding each key (a panic when a character is outside the dictionary)
and taking `as_u64().unwrap()` of each value (a panic when it is not an
unsigned integer); finally remove the `"<|endoftext|>"` entry (the source
repeats the `remove` line).  The resulting map is unused — the source
comment reads `TODO: assert bpe_ranks == encoder_json_loaded` — but its
panics are real. -/
def dataGymEncoderJsonCheck (jsonParse : String → Option JsonValue)
    (encoderJsonFetched : Except EncodeError String) : Option (List (ByteSeq × Nat)) :=
  match (jsonParse (encoderJsonFetched.toOption.getD "{}")).getD (JsonValue.object []) with
  | .nonObject => none
  | .object fields =>
    (fields.mapM (fun (kv : String × Option Nat) => do
        let key ← decode_data_gym kv.1 dataGymByteToByte
        let val ← kv.2
        pure (key, val)))
    |>.map (fun l =>
      hmRemove (hmRemove (hmCollect l) (strToBytes "<|endoftext|>"))
        (strToBytes "<|endoftext|>"))

/-- `src/load.rs::data_gym_to_mergeable_bpe_ranks`: build the 256
single-byte tokens, then append one entry per merge line of `vocab.bpe`
(fetched with `unwrap_or_default`, so a failed fetch yields no merges),
starting at rank `bpe_ranks.len()`; then run the `encoder.json`
cross-check block, whose `unwrap`s can abort the whole function, and
return `bpe_ranks` (the cross-check map itself is discarded). -/
def data_gym_to_mergeable_bpe_ranks (jsonParse : String → Option JsonValue)
    (vocabBpeFetched encoderJsonFetched : Except EncodeError String) :
    Option (List (ByteSeq × Nat)) :=
  match dataGymAddMerges bpeRanksBase bpeRanksBase.length
      (dataGymParseMerges (vocabBpeFetched.toOption.getD "")) with
  | none => none
  | some bpeRanks =>
    match dataGymEncoderJsonCheck jsonParse encoderJsonFetched with
    | none => none
    | some _ => some bpeRanks

/-- The printable ranges of the GPT-2 byte-to-unicode map as the spec
states them: `[0x21,0x7E]`, `[0xA1,0xAC]` and `[0xAE,0xFF]`. -/
def isPrintableDataGymByte (b : Nat) : Bool :=
  (0x21 ≤ b && b ≤ 0x7E) || (0xA1 ≤ b && b ≤ 0xAC) || (0xAE ≤ b && b ≤ 0xFF)

/-- The 68 bytes outside the printable ranges, in ascending byte order. -/
def dataGymRemainingBytes : List Nat :=
  (List.range 256).filter (fun b => !isPrintableDataGymByte b)

/-- The byte-sequence contributed by one merge line: the decoded first
half concatenated with the decoded second half. -/
def dataGymMergeKey (pr : String × String) : ByteSeq :=
  ((decode_data_gym pr.1 dataGymByteToByte).getD []) ++
    ((decode_data_gym pr.2 dataGymByteToByte).getD [])

/-! ## Test fixtures used by witnesses -/

/-- Trivial native encode routines for concrete test encodings. -/
def fns0 : CoreBPEFns :=
  { encodeOrdinaryNativeFn := fun _ => []
    encodeNativeFn := fun _ _ => []
    encodeUnstableNativeFn := fun _ _ => ([], [])
    compileRegexFn := fun _ => .ok () }

/-- A small concrete encoding used to instantiate the theorems. -/
def encW : Encoding :=
  { name := "test"
    patStr := ""
    specialTokens := [("<|endoftext|>", 50256)]
    maxTokenValue := 50256
    coreBpe :=
      { encoder := [([104], 0)]
        specialTokensEncoder := [("<|endoftext|>", 50256)]
        decoder := [(0, [104])]
        specialTokensDecoder := [(50256, strToBytes "<|endoftext|>")]
        sortedTokenBytes := [[104]]
        fns := fns0 } }

/-- Literal value of rankToIntbyte, used only to speed up kernel evaluation in proofs. -/
def rankToIntbyteLit : List Nat :=
  [33, 34, 35, 36, 37, 38, 39, 40, 41, 42, 43, 44, 45, 46, 47, 48, 49, 50, 51, 52, 53, 54, 55, 56, 57, 58, 59, 60, 61, 62, 63, 64, 65, 66, 67, 68, 69, 70, 71, 72, 73, 74, 75, 76, 77, 78, 79, 80, 81, 82, 83, 84, 85, 86, 87, 88, 89, 90, 91, 92, 93, 94, 95, 96, 97, 98, 99, 100, 101, 102, 103, 104, 105, 106, 107, 108, 109, 110, 111, 112, 113, 114, 115, 116, 117, 118, 119, 120, 121, 122, 123, 124, 125, 126, 161, 162, 163, 164, 165, 166, 167, 168, 169, 170, 171, 172, 174, 175, 176, 177, 178, 179, 180, 181, 182, 183, 184, 185, 186, 187, 188, 189, 190, 191, 192, 193, 194, 195, 196, 197, 198, 199, 200, 201, 202, 203, 204, 205, 206, 207, 208, 209, 210, 211, 212, 213, 214, 215, 216, 217, 218, 219, 220, 221, 222, 223, 224, 225, 226, 227, 228, 229, 230, 231, 232, 233, 234, 235, 236, 237, 238, 239, 240, 241, 242, 243, 244, 245, 246, 247, 248, 249, 250, 251, 252, 253, 254, 255, 0, 1, 2, 3, 4, 5, 6, 7, 8, 9, 10, 11, 12, 13, 14, 15, 16, 17, 18, 19, 20, 21, 22, 23, 24, 25, 26, 27, 28, 29, 30, 31, 32, 127, 128, 129, 130, 131, 132, 133, 134, 135, 136, 137, 138, 139, 140, 141, 142, 143, 144, 145, 146, 147, 148, 149, 150, 151, 152, 153, 154, 155, 156, 157, 158, 159, 160, 173]

/-- Literal value of dataGymByteToByte, used only to speed up kernel evaluation in proofs. -/
def dataGymByteToByteLit : List (Nat × Nat) :=
  [(323, 173), (322, 160), (321, 159), (320, 158), (319, 157), (318, 156), (317, 155), (316, 154), (315, 153), (314, 152), (313, 151), (312, 150), (311, 149), (310, 148), (309, 147), (308, 146), (307, 145), (306, 144), (305, 143), (304, 142), (303, 141), (302, 140), (301, 139), (300, 138), (299, 137), (298, 136), (297, 135), (296, 134), (295, 133), (294, 132), (293, 131), (292, 130), (291, 129), (290, 128), (289, 127), (288, 32), (287, 31), (286, 30), (285, 29), (284, 28), (283, 27), (282, 26), (281, 25), (280, 24), (279, 23), (278, 22), (277, 21), (276, 20), (275, 19), (274, 18), (273, 17), (272, 16), (271, 15), (270, 14), (269, 13), (268, 12), (267, 11), (266, 10), (265, 9), (264, 8), (263, 7), (262, 6), (261, 5), (260, 4), (259, 3), (258, 2), (257, 1), (256, 0), (33, 33), (34, 34), (35, 35), (36, 36), (37, 37), (38, 38), (39, 39), (40, 40), (41, 41), (42, 42), (43, 43), (44, 44), (45, 45), (46, 46), (47, 47), (48, 48), (49, 49), (50, 50), (51, 51), (52, 52), (53, 53), (54, 54), (55, 55), (56, 56), (57, 57), (58, 58), (59, 59), (60, 60), (61, 61), (62, 62), (63, 63), (64, 64), (65, 65), (66, 66), (67, 67), (68, 68), (69, 69), (70, 70), (71, 71), (72, 72), (73, 73), (74, 74), (75, 75), (76, 76), (77, 77), (78, 78), (79, 79), (80, 80), (81, 81), (82, 82), (83, 83), (84, 84), (85, 85), (86, 86), (87, 87), (88, 88), (89, 89), (90, 90), (91, 91), (92, 92), (93, 93), (94, 94), (95, 95), (96, 96), (97, 97), (98, 98), (99, 99), (100, 100), (101, 101), (102, 102), (103, 103), (104, 104), (105, 105), (106, 106), (107, 107), (108, 108), (109, 109), (110, 110), (111, 111), (112, 112), (113, 113), (114, 114), (115, 115), (116, 116), (117, 117), (118, 118), (119, 119), (120, 120), (121, 121), (122, 122), (123, 123), (124, 124), (125, 125), (126, 126), (161, 161), (162, 162), (163, 163), (164, 164), (165, 165), (166, 166), (167, 167), (168, 168), (169, 169), (170, 170), (171, 171), (172, 172), (174, 174), (175, 175), (176, 176), (177, 177), (178, 178), (179, 179), (180, 180), (181, 181), (182, 182), (183, 183), (184, 184), (185, 185), (186, 186), (187, 187), (188, 188), (189, 189), (190, 190), (191, 191), (192, 192), (193, 193), (194, 194), (195, 195), (196, 196), (197, 197), (198, 198), (199, 199), (200, 200), (201, 201), (202, 202), (203, 203), (204, 204), (205, 205), (206, 206), (207, 207), (208, 208), (209, 209), (210, 210), (211, 211), (212, 212), (213, 213), (214, 214), (215, 215), (216, 216), (217, 217), (218, 218), (219, 219), (220, 220), (221, 221), (222, 222), (223, 223), (224, 224), (225, 225), (226, 226), (227, 227), (228, 228), (229, 229), (230, 230), (231, 231), (232, 232), (233, 233), (234, 234), (235, 235), (236, 236), (237, 237), (238, 238), (239, 239), (240, 240), (241, 241), (242, 242), (243, 243), (244, 244), (245, 245), (246, 246), (247, 247), (248, 248), (249, 249), (250, 250), (251, 251), (252, 252), (253, 253), (254, 254), (255, 255)]

instance : Inhabited CoreBPEFns := ⟨fns0⟩

instance : Inhabited CoreBPE :=
  ⟨{ encoder := [], specialTokensEncoder := [], decoder := [],
     specialTokensDecoder := [], sortedTokenBytes := [], fns := fns0 }⟩

instance : Inhabited Encoding :=
  ⟨{ name := "", patStr := "", specialTokens := [], maxTokenValue := 0,
     coreBpe := default }⟩

/-- Concrete parameter used to instantiate theorems about
`Encoding::new`: one mergeable rank and one special token,
`explicit_n_vocab = 2`, `max_token_value = 1`. -/
def paramW : EncodingParam :=
  { name := "w"
    patStr := ""
    mergeableRanks := [([104], 0)]
    specialTokens := [("<|endoftext|>", 1)]
    explicitNVocab := some 2 }

/-- Like `paramW` but with a violated `explicit_n_vocab`. -/
def paramWBad : EncodingParam :=
  { name := "wbad"
    patStr := ""
    mergeableRanks := [([104], 0)]
    specialTokens := [("<|endoftext|>", 1)]
    explicitNVocab := some 3 }

/-- A minimal mergeable-ranks table with full single-byte coverage: each
byte `b` is a key mapped to rank `b`. -/
def fullByteRanks : List (ByteSeq × Nat) :=
  (List.range 256).map (fun b => ([b], b))

/-- The encoding built from the `cl100k_base` constructor over
`fullByteRanks` (construction succeeds: `cl100k_base` supplies no
`explicit_n_vocab`, the table covers all single bytes, and its ranks
`0..255` do not collide with the special ranks); used to instantiate
theorems. -/
def cEnc : Encoding :=
  match Encoding.new (cl100k_base fullByteRanks) fns0 with
  | .ok enc => enc
  | _ => default

/-! ## General helper lemmas -/

theorem alookup_cons {α β : Type} [DecidableEq α] (k' : α) (v : β) (m : List (α × β)) (k : α) :
    alookup ((k', v) :: m) k = if k = k' then some v else alookup m k := rfl

theorem alookup_eq_none_iff {α β : Type} [DecidableEq α] (l : List (α × β)) (k : α) :
    alookup l k = none ↔ ∀ p ∈ l, p.1 ≠ k := by
  induction l with
  | nil => simp [alookup]
  | cons p rest ih =>
    cases p with
    | mk a b =>
      by_cases h : k = a
      · subst h
        simp [alookup]
      · simp only [alookup, if_neg h, ih, List.mem_cons]
        constructor
        · rintro hall q (rfl | hq)
          · exact fun hc => h hc.symm
          · exact hall q hq
        · intro hall q hq
          exact hall q (Or.inr hq)

theorem mem_of_alookup_eq_some {α β : Type} [DecidableEq α] {l : List (α × β)} {k : α} {v : β}
    (h : alookup l k = some v) : (k, v) ∈ l := by
  induction l with
  | nil => simp [alookup] at h
  | cons p rest ih =>
    cases p with
    | mk a b =>
      by_cases hk : k = a
      · subst hk
        simp [alookup] at h
        subst h
        exact List.mem_cons_self _ _
      · simp only [alookup, if_neg hk] at h
        exact List.mem_cons_of_mem _ (ih h)

theorem scanSpecial_some {lits : List String} {cs : List Char} {l : String}
    (h : scanSpecial lits cs = some l) :
    l ∈ lits ∧ substrCharsB l.toList cs = true := by
  induction cs with
  | nil =>
    simp only [scanSpecial] at h
    refine ⟨List.mem_of_find?_eq_some h, ?_⟩
    simpa [substrCharsB] using List.find?_some h
  | cons c rest ih =>
    simp only [scanSpecial] at h
    cases hf : lits.find? (fun l => l.toList.isPrefixOf (c :: rest)) with
    | some l' =>
      rw [hf] at h
      cases h
      refine ⟨List.mem_of_find?_eq_some hf, ?_⟩
      simp only [substrCharsB, Bool.or_eq_true]
      have hp := List.find?_some hf
      exact Or.inl hp
    | none =>
      rw [hf] at h
      obtain ⟨hmem, hsub⟩ := ih h
      refine ⟨hmem, ?_⟩
      simp only [substrCharsB, Bool.or_eq_true]
      exact Or.inr hsub

theorem scanSpecial_eq_none_iff (lits : List String) (cs : List Char) :
    scanSpecial lits cs = none ↔ ∀ l ∈ lits, substrCharsB l.toList cs = false := by
  induction cs with
  | nil =>
    simp only [scanSpecial, List.find?_eq_none, substrCharsB]
    constructor
    · intro h l hl
      simpa using h l hl
    · intro h l hl
      simpa using h l hl
  | cons c rest ih =>
    simp only [scanSpecial]
    cases hf : lits.find? (fun l => l.toList.isPrefixOf (c :: rest)) with
    | some l' =>
      simp only [reduceCtorEq, false_iff]
      intro hall
      have h1 := List.find?_some hf
      have h2 := List.mem_of_find?_eq_some hf
      have h3 := hall l' h2
      simp only [substrCharsB, Bool.or_eq_false_iff] at h3
      rw [h3.1] at h1
      cases h1
    | none =>
      rw [List.find?_eq_none] at hf
      rw [ih]
      constructor
      · intro h l hl
        have hp := hf l hl
        simp only [substrCharsB, Bool.or_eq_false_iff]
        refine ⟨?_, h l hl⟩
        cases hb : l.toList.isPrefixOf (c :: rest) with
        | false => rfl
        | true => exact absurd hb hp
      · intro h l hl
        have := h l hl
        simp only [substrCharsB, Bool.or_eq_false_iff] at this
        exact this.2

theorem collectResults_map_ok {α β ε : Type} (f : α → Except ε β) (xs : List α) (l : List β) :
    collectResults (xs.map f) = .ok l ↔ List.Forall₂ (fun x r => f x = .ok r) xs l := by
  induction xs generalizing l with
  | nil =>
    simp only [List.map_nil, collectResults]
    constructor
    · rintro h
      cases h
      exact List.Forall₂.nil
    · rintro h
      cases h
      rfl
  | cons x rest ih =>
    simp only [List.map_cons, collectResults]
    cases hx : f x with
    | error e =>
      simp only [reduceCtorEq, false_iff]
      intro hc
      cases hc with
      | cons h1 _ => rw [hx] at h1; cases h1
    | ok v =>
      cases hr : collectResults (rest.map f) with
      | error e =>
        simp only [reduceCtorEq, false_iff]
        intro hc
        cases hc with
        | cons h1 h2 =>
          rw [← ih] at h2
          rw [hr] at h2
          cases h2
      | ok vs =>
        constructor
        · intro h
          cases h
          exact List.Forall₂.cons hx ((ih vs).mp hr)
        · intro h
          cases h with
          | cons h1 h2 =>
            rw [hx] at h1
            cases h1
            have := (ih _).mpr h2
            rw [hr] at this
            cases this
            rfl

theorem collectResults_map_error {α β ε : Type} (f : α → Except ε β) (xs : List α) (e : ε) :
    collectResults (xs.map f) = .error e ↔
      ∃ pre x post, xs = pre ++ x :: post ∧ f x = .error e ∧
        ∀ p ∈ pre, ∃ v, f p = .ok v := by
  induction xs with
  | nil =>
    simp only [List.map_nil, collectResults, reduceCtorEq, false_iff]
    rintro ⟨pre, x, post, habs, -, -⟩
    exact List.not_mem_nil x (habs ▸ List.mem_append_right pre (List.mem_cons_self x post))
  | cons y rest ih =>
    simp only [List.map_cons, collectResults]
    cases hy : f y with
    | error e' =>
      constructor
      · intro h
        cases h
        exact ⟨[], y, rest, rfl, hy, by simp⟩
      · rintro ⟨pre, x, post, hsplit, hx, hpre⟩
        cases pre with
        | nil =>
          simp only [List.nil_append, List.cons.injEq] at hsplit
          rw [← hsplit.1] at hx
          rw [hy] at hx
          cases hx
          rfl
        | cons p pre' =>
          simp only [List.cons_append, List.cons.injEq] at hsplit
          obtain ⟨v, hv⟩ := hpre p (by simp)
          rw [hsplit.1] at hy
          rw [hv] at hy
          cases hy
    | ok v =>
      have hshift : (∃ pre x post, y :: rest = pre ++ x :: post ∧ f x = .error e ∧
            ∀ p ∈ pre, ∃ w, f p = .ok w) ↔
          (∃ pre x post, rest = pre ++ x :: post ∧ f x = .error e ∧
            ∀ p ∈ pre, ∃ w, f p = .ok w) := by
        constructor
        · rintro ⟨pre, x, post, hsplit, hx, hpre⟩
          cases pre with
          | nil =>
            simp only [List.nil_append, List.cons.injEq] at hsplit
            rw [← hsplit.1] at hx
            rw [hy] at hx
            cases hx
          | cons p pre' =>
            simp only [List.cons_append, List.cons.injEq] at hsplit
            exact ⟨pre', x, post, hsplit.2, hx,
              fun q hq => hpre q (by simp [hq])⟩
        · rintro ⟨pre, x, post, hsplit, hx, hpre⟩
          refine ⟨y :: pre, x, post, by simp [hsplit], hx, ?_⟩
          intro p hp
          rcases List.mem_cons.mp hp with rfl | hp'
          · exact ⟨v, hy⟩
          · exact hpre p hp'
      rw [hshift, ← ih]
      cases hr : collectResults (rest.map f) with
      | error e' => simp
      | ok vs => simp

/-! ## Helper lemmas about the encode pre-check -/

theorem encode_of_scan_some {enc : Encoding} {text : String} {a : AllowedSpecial}
    {d : DisallowedSpecial} {lit : String}
    (hne : (enc.disallowedSpecialSet a d).isEmpty = false)
    (hs : scanSpecial (enc.disallowedSpecialSet a d) text.toList = some lit) :
    enc.encode text a d = .error (.specialTokenError lit) ∧
    enc.encodeWithUnstable text a d = .error (.specialTokenError lit) := by
  unfold Encoding.encode Encoding.encodeWithUnstable
  rw [hne]
  have hs' : scanSpecial (enc.disallowedSpecialSet a d) text.data = some lit := hs
  simp [hs']

theorem encode_of_scan_none {enc : Encoding} {text : String} {a : AllowedSpecial}
    {d : DisallowedSpecial}
    (hs : (enc.disallowedSpecialSet a d).isEmpty = true ∨
      scanSpecial (enc.disallowedSpecialSet a d) text.toList = none) :
    enc.encode text a d =
      .ok (enc.coreBpe.fns.encodeNativeFn text (enc.allowedSpecialSet a)) := by
  unfold Encoding.encode
  cases hemp : (enc.disallowedSpecialSet a d).isEmpty with
  | true => simp
  | false =>
    rcases hs with h | h
    · rw [hemp] at h
      cases h
    · simp only [Bool.false_eq_true, if_false, h]

theorem disallowedSpecialSet_empty_all (enc : Encoding) :
    enc.disallowedSpecialSet (.allowed []) .all = enc.specialTokensSet := by
  simp [Encoding.disallowedSpecialSet, Encoding.allowedSpecialSet]

/-! ## Claim theorems -/

/-- C5: for every `allowed_special` and `disallowed_special` argument of
`encode` and `encode_with_unstable` (both resolve their sets with the
shared definitions embedded here, the two resolution blocks being
verbatim copies in the source), the allowed set is the full special-token
key set when the argument is `All` and the explicit set otherwise, and
the disallowed set is the set difference full-set minus allowed-set when
the argument is `All` and the explicit set otherwise. -/
theorem claim_C5_special_set_resolution (enc : Encoding) (a : AllowedSpecial)
    (tokens : List String) (s : String) :
    enc.allowedSpecialSet .all = enc.specialTokensSet ∧
    enc.allowedSpecialSet (.allowed tokens) = tokens ∧
    (s ∈ enc.disallowedSpecialSet a .all ↔
      s ∈ enc.specialTokensSet ∧ s ∉ enc.allowedSpecialSet a) ∧
    enc.disallowedSpecialSet a (.disallowed tokens) = tokens := by
  refine ⟨rfl, rfl, ?_, rfl⟩
  unfold Encoding.disallowedSpecialSet
  rw [List.mem_filter]
  simp

theorem claim_C5_witness :
    "<|endoftext|>" ∈ encW.disallowedSpecialSet (.allowed []) .all :=
  (claim_C5_special_set_resolution encW (.allowed []) [] "<|endoftext|>").2.2.1.mpr
    ⟨by decide, by simp [Encoding.allowedSpecialSet]⟩

/-- C1: with `allowed_special = ∅` and `disallowed_special = ALL`,
`encode` fails exactly when the text contains some special-token literal
as a substring, the only failure is `SpecialTokenError` reporting a
matched literal; and in general, whenever the resolved disallowed set is
non-empty and the text contains one of its literals, both `encode` and
`encode_with_unstable` fail with `SpecialTokenError` (returning an error,
hence producing no tokens). -/
theorem claim_C1_disallowed_special_check (enc : Encoding) (text : String) :
    ((∃ lit, enc.encode text (.allowed []) .all = .error (.specialTokenError lit)) ↔
      ∃ lit ∈ enc.specialTokensSet, containsSubstr lit text = true) ∧
    (∀ e, enc.encode text (.allowed []) .all = .error e →
      ∃ lit ∈ enc.specialTokensSet, containsSubstr lit text = true ∧
        e = .specialTokenError lit) ∧
    (∀ (a : AllowedSpecial) (d : DisallowedSpecial),
      enc.disallowedSpecialSet a d ≠ [] →
      (∃ lit ∈ enc.disallowedSpecialSet a d, containsSubstr lit text = true) →
      ∃ lit ∈ enc.disallowedSpecialSet a d,
        containsSubstr lit text = true ∧
        enc.encode text a d = .error (.specialTokenError lit) ∧
        enc.encodeWithUnstable text a d = .error (.specialTokenError lit)) := by
  have general : ∀ (a : AllowedSpecial) (d : DisallowedSpecial),
      enc.disallowedSpecialSet a d ≠ [] →
      (∃ lit ∈ enc.disallowedSpecialSet a d, containsSubstr lit text = true) →
      ∃ lit ∈ enc.disallowedSpecialSet a d,
        containsSubstr lit text = true ∧
        enc.encode text a d = .error (.specialTokenError lit) ∧
        enc.encodeWithUnstable text a d = .error (.specialTokenError lit) := by
    intro a d hne hex
    have hempty : (enc.disallowedSpecialSet a d).isEmpty = false := by
      cases hds : enc.disallowedSpecialSet a d with
      | nil => exact absurd hds hne
      | cons x xs => rfl
    cases hscan : scanSpecial (enc.disallowedSpecialSet a d) text.toList with
    | none =>
      exfalso
      obtain ⟨lit, hmem, hsub⟩ := hex
      have := (scanSpecial_eq_none_iff _ _).mp hscan lit hmem
      rw [containsSubstr] at hsub
      rw [this] at hsub
      cases hsub
    | some lit =>
      obtain ⟨hmem, hsub⟩ := scanSpecial_some hscan
      obtain ⟨henc, hunst⟩ := encode_of_scan_some hempty hscan
      exact ⟨lit, hmem, hsub, henc, hunst⟩
  refine ⟨?_, ?_, general⟩
  · constructor
    · rintro ⟨lit, herr⟩
      cases hscan : scanSpecial (enc.disallowedSpecialSet (.allowed []) .all) text.toList with
      | none =>
        rw [encode_of_scan_none (Or.inr hscan)] at herr
        cases herr
      | some lit' =>
        obtain ⟨hmem, hsub⟩ := scanSpecial_some hscan
        rw [disallowedSpecialSet_empty_all] at hmem
        exact ⟨lit', hmem, hsub⟩
    · rintro ⟨lit, hmem, hsub⟩
      have hne : enc.disallowedSpecialSet (.allowed []) .all ≠ [] := by
        rw [disallowedSpecialSet_empty_all]
        intro habs
        rw [habs] at hmem
        cases hmem
      obtain ⟨lit', _, _, henc, _⟩ := general (.allowed []) .all hne
        ⟨lit, by rw [disallowedSpecialSet_empty_all]; exact hmem, hsub⟩
      exact ⟨lit', henc⟩
  · intro e herr
    cases hemp : (enc.disallowedSpecialSet (.allowed []) .all).isEmpty with
    | true =>
      rw [encode_of_scan_none (Or.inl hemp)] at herr
      cases herr
    | false =>
      cases hscan : scanSpecial (enc.disallowedSpecialSet (.allowed []) .all) text.toList with
      | none =>
        rw [encode_of_scan_none (Or.inr hscan)] at herr
        cases herr
      | some lit =>
        obtain ⟨hmem, hsub⟩ := scanSpecial_some hscan
        obtain ⟨henc, -⟩ := encode_of_scan_some hemp hscan
        rw [henc] at herr
        cases herr
        refine ⟨lit, ?_, hsub, rfl⟩
        rw [disallowedSpecialSet_empty_all] at hmem
        exact hmem

theorem claim_C1_witness :
    ∃ lit ∈ encW.disallowedSpecialSet (.allowed []) .all,
      containsSubstr lit "hi <|endoftext|> there" = true ∧
      encW.encode "hi <|endoftext|> there" (.allowed []) .all =
        .error (.specialTokenError lit) ∧
      encW.encodeWithUnstable "hi <|endoftext|> there" (.allowed []) .all =
        .error (.specialTokenError lit) :=
  (claim_C1_disallowed_special_check encW "hi <|endoftext|> there").2.2
    (.allowed []) .all (by decide) ⟨"<|endoftext|>", by decide, by decide⟩

/-- C2: `encode_batch` equals elementwise `encode` in input order — it
returns the list of per-item token lists (related pointwise by
`Forall₂`) exactly when every element succeeds, and otherwise the error
of the failing element with the smallest input index (all elements
before the failing one succeed), never a partial result;
`encode_ordinary_batch` is elementwise `encode_ordinary`, and
`decode_tokens_bytes` is elementwise `decode_single_token_bytes` with
the same first-error semantics. -/
theorem claim_C2_batch_elementwise (enc : Encoding) (texts : List String)
    (a : AllowedSpecial) (d : DisallowedSpecial) (results : List (List Nat))
    (e : EncodeError) (tokens : List Nat) (byteResults : List ByteSeq) (i : Nat) :
    (enc.encodeBatch texts a d = .ok results ↔
      List.Forall₂ (fun t r => enc.encode t a d = .ok r) texts results) ∧
    (enc.encodeBatch texts a d = .error e ↔
      ∃ pre t post, texts = pre ++ t :: post ∧ enc.encode t a d = .error e ∧
        ∀ p ∈ pre, ∃ v, enc.encode p a d = .ok v) ∧
    ((enc.encodeOrdinaryBatch texts).length = texts.length ∧
      (enc.encodeOrdinaryBatch texts)[i]? = (texts[i]?).map (fun t => enc.encodeOrdinary t)) ∧
    (enc.decodeTokensBytes tokens = .ok byteResults ↔
      List.Forall₂ (fun tk b => enc.decodeSingleTokenBytes tk = .ok b) tokens byteResults) ∧
    (enc.decodeTokensBytes tokens = .error e ↔
      ∃ pre tk post, tokens = pre ++ tk :: post ∧
        enc.decodeSingleTokenBytes tk = .error e ∧
        ∀ p ∈ pre, ∃ v, enc.decodeSingleTokenBytes p = .ok v) := by
  refine ⟨?_, ?_, ⟨?_, ?_⟩, ?_, ?_⟩
  · exact collectResults_map_ok (fun t => enc.encode t a d) texts results
  · exact collectResults_map_error (fun t => enc.encode t a d) texts e
  · simp [Encoding.encodeOrdinaryBatch]
  · simp [Encoding.encodeOrdinaryBatch]
  · exact collectResults_map_ok (fun tk => enc.decodeSingleTokenBytes tk) tokens byteResults
  · exact collectResults_map_error (fun tk => enc.decodeSingleTokenBytes tk) tokens e

theorem claim_C2_witness :
    encW.encodeBatch ["h", "a<|endoftext|>b"] (.allowed []) .all =
      .error (.specialTokenError "<|endoftext|>") :=
  (claim_C2_batch_elementwise encW ["h", "a<|endoftext|>b"] (.allowed []) .all []
      (.specialTokenError "<|endoftext|>") [] [] 0).2.1.mpr
    ⟨["h"], "a<|endoftext|>b", [], rfl, by decide,
      fun p hp => by
        rw [List.mem_singleton] at hp
        subst hp
        exact ⟨[], by decide⟩⟩

/-- Helper for C3: no model name starts with both registered prefixes. -/
theorem not_both_model_prefixes (modelName : String) :
    ¬(strStartsWith modelName "gpt-4-" = true ∧
      strStartsWith modelName "gpt-3.5-turbo-" = true) := by
  rintro ⟨h1, h2⟩
  rw [strStartsWith, List.isPrefixOf_iff_prefix] at h1 h2
  rcases List.prefix_or_prefix_of_prefix h1 h2 with h | h
  · exact absurd h (by decide)
  · exact absurd h (by decide)

/-- C3: `encoding_for_model` returns the encoding named by the exact-match
entry of `MODEL_TO_ENCODING` when one exists; otherwise, when some
prefix-table entry is a prefix of the model name, it returns the encoding
of the longest matching prefix (at most one of the two registered
prefixes can match, so the matching one is the longest); otherwise it
fails with `ModelNameError`.  In particular `"text-davinci-003"` resolves
to the `p50k_base` encoding and `"gpt-3.5-turbo-0301"` to the
`cl100k_base` encoding (whatever `get_encoding`, abstracted as
`getEncoding`, returns for those names). -/
theorem claim_C3_encoding_for_model {α : Type} (getEncoding : String → Except EncodeError α)
    (modelName : String) (encodingName : String) :
    (alookup MODEL_TO_ENCODING modelName = some encodingName →
      encodingForModel getEncoding modelName = getEncoding encodingName) ∧
    (∀ pe ∈ MODEL_PREFIX_TO_ENCODING,
      alookup MODEL_TO_ENCODING modelName = none →
      strStartsWith modelName pe.1 = true →
      (∀ qe ∈ MODEL_PREFIX_TO_ENCODING,
        strStartsWith modelName qe.1 = true → qe.1.length ≤ pe.1.length) →
      encodingForModel getEncoding modelName = getEncoding pe.2) ∧
    (alookup MODEL_TO_ENCODING modelName = none →
      (∀ qe ∈ MODEL_PREFIX_TO_ENCODING, strStartsWith modelName qe.1 = false) →
      encodingForModel getEncoding modelName = .error (.modelNameError modelName)) ∧
    encodingForModel getEncoding "text-davinci-003" = getEncoding "p50k_base" ∧
    encodingForModel getEncoding "gpt-3.5-turbo-0301" = getEncoding "cl100k_base" := by
  refine ⟨?_, ?_, ?_, ?_, ?_⟩
  · intro hexact
    unfold encodingForModel
    rw [hexact]
  · intro pe hpe hexact hmatch hlongest
    unfold encodingForModel
    rw [hexact]
    have hcl : pe.2 = "cl100k_base" := by
      rw [ MODEL_PREFIX_TO_ENCODING] at hpe
      rcases List.mem_cons.mp hpe with h | h
      · rw [h]
      · rw [List.mem_singleton.mp h]
    cases hfind : MODEL_PREFIX_TO_ENCODING.find?
        (fun qe => strStartsWith modelName qe.1) with
    | none =>
      exfalso
      rw [List.find?_eq_none] at hfind
      exact absurd hmatch (by simpa using hfind pe hpe)
    | some qe =>
      have hqmem := List.mem_of_find?_eq_some hfind
      have hqcl : qe.2 = "cl100k_base" := by
        rw [ MODEL_PREFIX_TO_ENCODING] at hqmem
        rcases List.mem_cons.mp hqmem with h | h
        · rw [h]
        · rw [List.mem_singleton.mp h]
      show getEncoding qe.2 = getEncoding pe.2
      rw [hqcl, hcl]
  · intro hexact hnone
    unfold encodingForModel
    rw [hexact]
    have hfind : MODEL_PREFIX_TO_ENCODING.find?
        (fun qe => strStartsWith modelName qe.1) = none := by
      rw [List.find?_eq_none]
      intro qe hqe
      simp [hnone qe hqe]
    rw [hfind]
  · rfl
  · rfl

theorem claim_C3_witness :
    encodingForModel (fun n => Except.ok n) "gpt-4-0314" = Except.ok "cl100k_base" :=
  (claim_C3_encoding_for_model (fun n => Except.ok n) "gpt-4-0314" "").2.1
    ("gpt-4-", "cl100k_base") (by decide) (by decide) (by decide)
    (fun qe hqe hq => by
      rw [ MODEL_PREFIX_TO_ENCODING] at hqe
      rcases List.mem_cons.mp hqe with h | h
      · rw [h]
      · rw [List.mem_singleton.mp h] at hq
        exact absurd hq (by decide))

/-- C4: for every rank present in the vocabulary decoder or the
special-token decoder, decoding it to bytes and re-encoding those bytes
returns the same rank.  The hypotheses are the construction invariants of
the rank tables (spec section 3, C1/C2): lookups agree with the stored
entries (no duplicate keys), the vocabulary decoder is the inverse of the
encoder, and a special token decodes to bytes that are not a vocabulary
key and re-encode through the special-token encoder to its own rank. -/
theorem claim_C4_single_token_roundtrip (enc : Encoding)
    (hdec : ∀ p ∈ enc.coreBpe.decoder, alookup enc.coreBpe.decoder p.1 = some p.2)
    (hsdec : ∀ p ∈ enc.coreBpe.specialTokensDecoder,
      alookup enc.coreBpe.specialTokensDecoder p.1 = some p.2)
    (hinv : ∀ p ∈ enc.coreBpe.decoder, alookup enc.coreBpe.encoder p.2 = some p.1)
    (hspec : ∀ p ∈ enc.coreBpe.specialTokensDecoder,
      alookup enc.coreBpe.encoder p.2 = none ∧
      (enc.coreBpe.specialTokensEncoder.find?
        (fun kv => strToBytes kv.1 == p.2)).map Prod.snd = some p.1) :
    ∀ r, (r ∈ enc.coreBpe.decoder.map Prod.fst ∨
        r ∈ enc.coreBpe.specialTokensDecoder.map Prod.fst) →
      ∃ b, enc.decodeSingleTokenBytes r = .ok b ∧ enc.encodeSingleToken b = .ok r := by
  intro r hr
  cases hdl : alookup enc.coreBpe.decoder r with
  | some b =>
    refine ⟨b, ?_, ?_⟩
    · unfold Encoding.decodeSingleTokenBytes
      rw [hdl]
    · have hmem := mem_of_alookup_eq_some hdl
      have henc := hinv (r, b) hmem
      unfold Encoding.encodeSingleToken
      rw [henc]
  | none =>
    have hrs : r ∈ enc.coreBpe.specialTokensDecoder.map Prod.fst := by
      rcases hr with h | h
      · exfalso
        obtain ⟨p, hp, hp1⟩ := List.mem_map.mp h
        have := hdec p hp
        rw [hp1] at this
        rw [hdl] at this
        cases this
      · exact h
    obtain ⟨p, hp, hp1⟩ := List.mem_map.mp hrs
    obtain ⟨henc, hfind⟩ := hspec p hp
    have hsl : alookup enc.coreBpe.specialTokensDecoder r = some p.2 := by
      rw [← hp1]
      exact hsdec p hp
    refine ⟨p.2, ?_, ?_⟩
    · unfold Encoding.decodeSingleTokenBytes
      rw [hdl, hsl]
    · unfold Encoding.encodeSingleToken
      rw [henc]
      cases hf : enc.coreBpe.specialTokensEncoder.find? (fun kv => strToBytes kv.1 == p.2) with
      | none =>
        rw [hf] at hfind
        cases hfind
      | some kv =>
        rw [hf] at hfind
        have hkv : kv.2 = p.1 := by simpa using hfind
        show Except.ok kv.2 = Except.ok r
        rw [hkv, hp1]
  -- no more goals

theorem claim_C4_witness :
    ∃ b, encW.decodeSingleTokenBytes 50256 = .ok b ∧
      encW.encodeSingleToken b = .ok 50256 :=
  claim_C4_single_token_roundtrip encW (by decide) (by decide) (by decide) (by decide)
    50256 (Or.inr (by decide))

/-- C6: `decode_single_token_bytes` returns exactly the byte-sequence
stored for the rank in the vocabulary decoder (or, failing that, the
special-token decoder), and fails — only with `TokenNotFoundError`
carrying the rank — precisely when neither map contains the rank;
`encode_single_token` succeeds precisely when the piece is a vocabulary
key or equals the UTF-8 bytes of a special-token literal, and otherwise
fails exactly with `TokenEncodeError` carrying the piece. -/
theorem claim_C6_single_token_lookup (enc : Encoding) (r : Nat) (b piece : ByteSeq) :
    (enc.decodeSingleTokenBytes r = .ok b ↔
      (alookup enc.coreBpe.decoder r = some b ∨
        (alookup enc.coreBpe.decoder r = none ∧
          alookup enc.coreBpe.specialTokensDecoder r = some b))) ∧
    (enc.decodeSingleTokenBytes r = .error (.tokenNotFoundError r) ↔
      (alookup enc.coreBpe.decoder r = none ∧
        alookup enc.coreBpe.specialTokensDecoder r = none)) ∧
    (∀ e, enc.decodeSingleTokenBytes r = .error e → e = .tokenNotFoundError r) ∧
    ((∃ t, enc.encodeSingleToken piece = .ok t) ↔
      ((∃ t, alookup enc.coreBpe.encoder piece = some t) ∨
        ∃ kv ∈ enc.coreBpe.specialTokensEncoder, strToBytes kv.1 = piece)) ∧
    (enc.encodeSingleToken piece = .error (.tokenEncodeError piece) ↔
      ¬((∃ t, alookup enc.coreBpe.encoder piece = some t) ∨
        ∃ kv ∈ enc.coreBpe.specialTokensEncoder, strToBytes kv.1 = piece)) ∧
    (∀ e, enc.encodeSingleToken piece = .error e → e = .tokenEncodeError piece) := by
  unfold Encoding.decodeSingleTokenBytes Encoding.encodeSingleToken
  have hfindiff : (∃ kv ∈ enc.coreBpe.specialTokensEncoder, strToBytes kv.1 = piece) ↔
      (enc.coreBpe.specialTokensEncoder.find?
        (fun kv => strToBytes kv.1 == piece)).isSome = true := by
    rw [List.find?_isSome]
    constructor
    · rintro ⟨kv, hmem, hb⟩
      exact ⟨kv, hmem, by simpa using hb⟩
    · rintro ⟨kv, hmem, hb⟩
      exact ⟨kv, hmem, by simpa using hb⟩
  cases hd : alookup enc.coreBpe.decoder r with
  | some b' =>
    cases he : alookup enc.coreBpe.encoder piece with
    | some t' => simp [hd, he]
    | none =>
      cases hf : enc.coreBpe.specialTokensEncoder.find?
          (fun kv => strToBytes kv.1 == piece) with
      | some kv => simp [hd, he, hf, hfindiff]
      | none => simp [hd, he, hf, hfindiff]
  | none =>
    cases hs : alookup enc.coreBpe.specialTokensDecoder r with
    | some b' =>
      cases he : alookup enc.coreBpe.encoder piece with
      | some t' => simp [hd, hs, he]
      | none =>
        cases hf : enc.coreBpe.specialTokensEncoder.find?
            (fun kv => strToBytes kv.1 == piece) with
        | some kv => simp [hd, hs, he, hf, hfindiff]
        | none => simp [hd, hs, he, hf, hfindiff]
    | none =>
      cases he : alookup enc.coreBpe.encoder piece with
      | some t' => simp [hd, hs, he]
      | none =>
        cases hf : enc.coreBpe.specialTokensEncoder.find?
            (fun kv => strToBytes kv.1 == piece) with
        | some kv => simp [hd, hs, he, hf, hfindiff]
        | none => simp [hd, hs, he, hf, hfindiff]

theorem claim_C6_witness :
    encW.decodeSingleTokenBytes 5 = .error (.tokenNotFoundError 5) :=
  (claim_C6_single_token_lookup encW 5 [] []).2.1.mpr (by decide)


/-- C8: when `explicit_n_vocab = n` is supplied (and is positive, as for
every registered encoding; with `n = 0` the Rust code aborts
unconditionally on the `usize` underflow of `n - 1`), construction checks
the two equalities `|mergeable_ranks| + |special_tokens| = n` and
`max_token_value = n - 1` by assertion: a violation aborts — panic, an
abort-class assertion failure, not a recoverable `Err` — and when both
equalities hold construction proceeds past the assertions without this
failure, into the `CoreBPE` construction code (which has its own,
independent abort and error outcomes). -/
theorem claim_C8_explicit_n_vocab_assertions (param : EncodingParam) (fns : CoreBPEFns)
    (nVocab : Nat) (hsome : param.explicitNVocab = some nVocab) (hpos : 0 < nVocab) :
    (¬(param.mergeableRanks.length + param.specialTokens.length = nVocab ∧
        encodingMaxTokenValue param = nVocab - 1) →
      Encoding.new param fns = .panic) ∧
    ((param.mergeableRanks.length + param.specialTokens.length = nVocab ∧
        encodingMaxTokenValue param = nVocab - 1) →
      Encoding.new param fns =
        Encoding.newBuild param fns (encodingMaxTokenValue param)) := by
  have hnz : nVocab ≠ 0 := Nat.pos_iff_ne_zero.mp hpos
  have heq : Encoding.new param fns =
      (if param.mergeableRanks.length + param.specialTokens.length ≠ nVocab then NewResult.panic
       else if nVocab = 0 then NewResult.panic
       else if encodingMaxTokenValue param ≠ nVocab - 1 then NewResult.panic
       else Encoding.newBuild param fns (encodingMaxTokenValue param)) := by
    unfold Encoding.new
    rw [hsome]
  constructor
  · intro hcon
    rw [heq]
    by_cases h1 : param.mergeableRanks.length + param.specialTokens.length = nVocab
    · by_cases h2 : encodingMaxTokenValue param = nVocab - 1
      · exact absurd ⟨h1, h2⟩ hcon
      · rw [if_neg (not_not_intro h1), if_neg hnz, if_pos h2]
    · rw [if_pos h1]
  · rintro ⟨h1, h2⟩
    rw [heq, if_neg (not_not_intro h1), if_neg hnz, if_neg (not_not_intro h2)]

theorem claim_C8_witness :
    Encoding.new paramWBad fns0 = NewResult.panic ∧
    Encoding.new paramW fns0 =
      Encoding.newBuild paramW fns0 (encodingMaxTokenValue paramW) :=
  ⟨(claim_C8_explicit_n_vocab_assertions paramWBad fns0 3 rfl (by decide)).1 (by decide),
   (claim_C8_explicit_n_vocab_assertions paramW fns0 2 rfl (by decide)).2
     ⟨by decide, by decide⟩⟩

set_option maxRecDepth 40000 in
set_option maxHeartbeats 4000000 in
theorem dataGymState_eq : dataGymState = (rankToIntbyteLit, dataGymByteToByteLit, 68) := by
  decide

theorem rankToIntbyte_eq : rankToIntbyte = rankToIntbyteLit := by
  unfold rankToIntbyte
  rw [dataGymState_eq]

theorem dataGymByteToByte_eq : dataGymByteToByte = dataGymByteToByteLit := by
  unfold dataGymByteToByte
  rw [dataGymState_eq]

set_option maxRecDepth 40000 in
theorem bpeRanksBase_length : bpeRanksBase.length = 256 := by
  unfold bpeRanksBase
  rw [rankToIntbyte_eq]
  decide

theorem dataGymEncoderJsonCheck_of_fetch_error {jsonParse : String → Option JsonValue}
    (e : EncodeError)
    (hparse : (jsonParse "{}").getD (JsonValue.object []) = JsonValue.object []) :
    dataGymEncoderJsonCheck jsonParse (.error e) = some [] := by
  unfold dataGymEncoderJsonCheck
  have h2 : (jsonParse ((Except.error e : Except EncodeError String).toOption.getD
      "{}")).getD (JsonValue.object []) = JsonValue.object [] := hparse
  rw [h2]
  rfl

/-- C9: the vocabulary loaders never surface fetch failures (I/O or
network errors from `read_file_cached`, passed in here as the `Except`
arguments): on a failed fetch `load_tiktoken_bpe` substitutes empty
content and returns the empty rank table, and on failed fetches
`data_gym_to_mergeable_bpe_ranks` substitutes empty merge content and the
string `"{}"` for `encoder.json` and returns exactly the 256 single-byte
entries, instead of propagating the error.  The external JSON parser is a
parameter; the only assumption about it is that parsing `"{}"` (or
replacing a parse failure via `unwrap_or`) yields the empty object, as
any JSON parser does. -/
theorem claim_C9_loaders_swallow_fetch_errors (b64Decode : String → Option ByteSeq)
    (jsonParse : String → Option JsonValue) (e1 e2 e3 : EncodeError)
    (hparse : (jsonParse "{}").getD (JsonValue.object []) = JsonValue.object []) :
    load_tiktoken_bpe b64Decode (.error e1) = some [] ∧
    data_gym_to_mergeable_bpe_ranks jsonParse (.error e2) (.error e3) = some bpeRanksBase ∧
    bpeRanksBase.length = 256 := by
  refine ⟨by rfl, ?_, bpeRanksBase_length⟩
  unfold data_gym_to_mergeable_bpe_ranks
  have hmerges : dataGymAddMerges bpeRanksBase bpeRanksBase.length
      (dataGymParseMerges ((Except.error e2 : Except EncodeError String).toOption.getD "")) =
      some bpeRanksBase := rfl
  rw [hmerges, dataGymEncoderJsonCheck_of_fetch_error e3 hparse]

theorem claim_C9_witness :
    data_gym_to_mergeable_bpe_ranks (fun _ => none) (.error (.ioError "io"))
      (.error (.httpError "net")) = some bpeRanksBase :=
  (claim_C9_loaders_swallow_fetch_errors (fun _ => none) (fun _ => none)
    (.ioError "io") (.ioError "io") (.httpError "net") (by decide)).2.1

set_option maxRecDepth 40000 in
set_option maxHeartbeats 4000000 in
theorem dataGym_printable_lookup : ∀ b ∈ List.range 256,
    isPrintableDataGymByte b = true → alookup dataGymByteToByte b = some b := by
  rw [dataGymByteToByte_eq]
  decide

theorem dataGym_remaining_length : dataGymRemainingBytes.length = 68 := by decide

set_option maxRecDepth 40000 in
set_option maxHeartbeats 4000000 in
theorem dataGym_remaining_lookup : ∀ i ∈ List.range 68,
    alookup dataGymByteToByte (256 + i) = some (dataGymRemainingBytes.getD i 0) := by
  rw [dataGymByteToByte_eq]
  decide

set_option maxRecDepth 40000 in
set_option maxHeartbeats 4000000 in
theorem bpeRanksBase_single_lookup : ∀ b ∈ List.range 256,
    (alookup bpeRanksBase [b]).isSome = true ∧ (alookup bpeRanksBase [b]).getD 0 < 256 := by
  unfold bpeRanksBase
  rw [rankToIntbyte_eq]
  decide

theorem mapM_option_length {α β : Type} (l : List α) (f : α → Option β) :
    ∀ r : List β, l.mapM f = some r → r.length = l.length := by
  induction l with
  | nil =>
    intro r h
    simp only [List.mapM_nil, pure] at h
    cases h
    rfl
  | cons x xs ih =>
    intro r h
    rw [List.mapM_cons] at h
    cases hfx : f x with
    | none => rw [hfx] at h; cases h
    | some b =>
      rw [hfx] at h
      cases hrest : xs.mapM f with
      | none =>
        rw [hrest] at h
        cases h
      | some bs =>
        rw [hrest] at h
        cases h
        simp [ih bs hrest]

theorem decode_data_gym_length {value : String} {dict : List (Nat × Nat)} {bs : ByteSeq}
    (h : decode_data_gym value dict = some bs) : bs.length = value.toList.length :=
  mapM_option_length value.toList (fun c => alookup dict c.toNat) bs h

theorem dataGymMergeKey_ne_single {pr : String × String} {b : Nat}
    (h1 : (decode_data_gym pr.1 dataGymByteToByte).isSome = true)
    (h2 : (decode_data_gym pr.2 dataGymByteToByte).isSome = true)
    (hne1 : pr.1.toList ≠ []) (hne2 : pr.2.toList ≠ []) :
    dataGymMergeKey pr ≠ [b] := by
  obtain ⟨k1, hk1⟩ := Option.isSome_iff_exists.mp h1
  obtain ⟨k2, hk2⟩ := Option.isSome_iff_exists.mp h2
  intro habs
  have hlen : (dataGymMergeKey pr).length = 1 := by rw [habs]; rfl
  unfold dataGymMergeKey at hlen
  rw [hk1, hk2] at hlen
  simp only [Option.getD_some, List.length_append] at hlen
  rw [decode_data_gym_length hk1, decode_data_gym_length hk2] at hlen
  have l1 : 1 ≤ pr.1.toList.length := List.length_pos.mpr hne1
  have l2 : 1 ≤ pr.2.toList.length := List.length_pos.mpr hne2
  omega

theorem dataGymAddMerges_isSome :
    ∀ (pairs : List (String × String)) (m : List (ByteSeq × Nat)) (n : Nat),
    (∀ pr ∈ pairs, (decode_data_gym pr.1 dataGymByteToByte).isSome = true ∧
      (decode_data_gym pr.2 dataGymByteToByte).isSome = true) →
    (dataGymAddMerges m n pairs).isSome = true := by
  intro pairs
  induction pairs with
  | nil => intro m n _; rfl
  | cons pr rest ih =>
    intro m n hall
    obtain ⟨h1, h2⟩ := hall pr (List.mem_cons_self _ _)
    obtain ⟨k1, hk1⟩ := Option.isSome_iff_exists.mp h1
    obtain ⟨k2, hk2⟩ := Option.isSome_iff_exists.mp h2
    unfold dataGymAddMerges
    rw [hk1, hk2]
    exact ih _ _ (fun q hq => hall q (List.mem_cons_of_mem _ hq))

theorem dataGymAddMerges_lookup_preserved :
    ∀ (pairs : List (String × String)) (m : List (ByteSeq × Nat)) (n : Nat)
      (k : ByteSeq) (t : List (ByteSeq × Nat)),
    dataGymAddMerges m n pairs = some t →
    (∀ pr ∈ pairs, dataGymMergeKey pr ≠ k) →
    alookup t k = alookup m k := by
  intro pairs
  induction pairs with
  | nil =>
    intro m n k t h _
    cases h
    rfl
  | cons pr rest ih =>
    intro m n k t h hne
    unfold dataGymAddMerges at h
    cases hk1 : decode_data_gym pr.1 dataGymByteToByte with
    | none => rw [hk1] at h; cases h
    | some k1 =>
      cases hk2 : decode_data_gym pr.2 dataGymByteToByte with
      | none => rw [hk1, hk2] at h; cases h
      | some k2 =>
        rw [hk1, hk2] at h
        have hkey : dataGymMergeKey pr = k1 ++ k2 := by
          unfold dataGymMergeKey
          rw [hk1, hk2]
          rfl
        have hprev := ih _ _ k t h (fun q hq => hne q (List.mem_cons_of_mem _ hq))
        rw [hprev]
        show alookup ((k1 ++ k2, n) :: m) k = alookup m k
        rw [alookup_cons, if_neg]
        intro habs
        exact hne pr (List.mem_cons_self _ _) (by rw [hkey, habs])

theorem dataGymAddMerges_lookup_nth :
    ∀ (pairs : List (String × String)) (m : List (ByteSeq × Nat)) (n i : Nat)
      (t : List (ByteSeq × Nat)),
    dataGymAddMerges m n pairs = some t →
    (pairs.map dataGymMergeKey).Nodup →
    i < pairs.length →
    alookup t (dataGymMergeKey (pairs.getD i ("", ""))) = some (n + i) := by
  intro pairs
  induction pairs with
  | nil =>
    intro m n i t _ _ hi
    cases hi
  | cons pr rest ih =>
    intro m n i t h hnodup hi
    unfold dataGymAddMerges at h
    cases hk1 : decode_data_gym pr.1 dataGymByteToByte with
    | none => rw [hk1] at h; cases h
    | some k1 =>
      cases hk2 : decode_data_gym pr.2 dataGymByteToByte with
      | none => rw [hk1, hk2] at h; cases h
      | some k2 =>
        rw [hk1, hk2] at h
        have hkey : dataGymMergeKey pr = k1 ++ k2 := by
          unfold dataGymMergeKey
          rw [hk1, hk2]
          rfl
        rw [List.map_cons, List.nodup_cons] at hnodup
        cases i with
        | zero =>
          have hpres := dataGymAddMerges_lookup_preserved rest _ _ (dataGymMergeKey pr) t h
            (fun q hq habs => hnodup.1 (habs ▸ List.mem_map_of_mem dataGymMergeKey hq))
          rw [List.getD_cons_zero, hpres, hkey]
          show alookup ((k1 ++ k2, n) :: m) (k1 ++ k2) = some (n + 0)
          rw [alookup_cons, if_pos rfl, Nat.add_zero]
        | succ j =>
          have := ih _ _ j t h hnodup.2 (by rw [List.length_cons] at hi; omega)
          rw [List.getD_cons_succ]
          rw [this]
          congr 1
          omega

theorem data_gym_some_iff (jsonParse : String → Option JsonValue)
    (vf ef : Except EncodeError String) (t : List (ByteSeq × Nat)) :
    data_gym_to_mergeable_bpe_ranks jsonParse vf ef = some t ↔
      dataGymAddMerges bpeRanksBase bpeRanksBase.length
        (dataGymParseMerges (vf.toOption.getD "")) = some t ∧
      (dataGymEncoderJsonCheck jsonParse ef).isSome = true := by
  unfold data_gym_to_mergeable_bpe_ranks
  cases ha : dataGymAddMerges bpeRanksBase bpeRanksBase.length
      (dataGymParseMerges (vf.toOption.getD "")) with
  | none => simp
  | some bp =>
    cases hc : dataGymEncoderJsonCheck jsonParse ef with
    | none => simp
    | some l => simp

/-- C7: in the GPT-2 data-gym loader, the byte-to-unicode map sends every
byte of the printable ranges `[0x21,0x7E]`, `[0xA1,0xAC]`, `[0xAE,0xFF]`
to the code point equal to its own value; the remaining 68 bytes, in
ascending byte order, are keyed by consecutive code points starting at
`U+0100`; and in the returned table each of the 256 single bytes occupies
one rank in `0..255` while the i-th merge line of `vocab.bpe` after the
header contributes its entry at rank `256 + i`, in file order.  The
hypotheses say the merge file is well-formed: both halves of every merge
line are non-empty, decode under the dictionary, and no two merge lines
contribute the same byte-sequence. -/
theorem claim_C7_data_gym_tables (contents : String)
    (jsonParse : String → Option JsonValue)
    (encoderJsonFetched : Except EncodeError String)
    (hdec : ∀ pr ∈ dataGymParseMerges contents,
      (decode_data_gym pr.1 dataGymByteToByte).isSome = true ∧
      (decode_data_gym pr.2 dataGymByteToByte).isSome = true ∧
      pr.1.toList ≠ [] ∧ pr.2.toList ≠ [])
    (hnodup : ((dataGymParseMerges contents).map dataGymMergeKey).Nodup)
    (hjson : (dataGymEncoderJsonCheck jsonParse encoderJsonFetched).isSome = true) :
    (∀ b ∈ List.range 256, isPrintableDataGymByte b = true →
      alookup dataGymByteToByte b = some b) ∧
    (dataGymRemainingBytes.length = 68 ∧
      ∀ i ∈ List.range 68,
        alookup dataGymByteToByte (256 + i) = some (dataGymRemainingBytes.getD i 0)) ∧
    (data_gym_to_mergeable_bpe_ranks jsonParse (.ok contents) encoderJsonFetched).isSome =
      true ∧
    (∀ t,
      data_gym_to_mergeable_bpe_ranks jsonParse (.ok contents) encoderJsonFetched = some t →
      (∀ b ∈ List.range 256,
        (alookup t [b]).isSome = true ∧ (alookup t [b]).getD 0 < 256) ∧
      (∀ i ∈ List.range (dataGymParseMerges contents).length,
        alookup t (dataGymMergeKey ((dataGymParseMerges contents).getD i ("", ""))) =
          some (256 + i))) := by
  have hadd : (dataGymAddMerges bpeRanksBase bpeRanksBase.length
      (dataGymParseMerges contents)).isSome = true :=
    dataGymAddMerges_isSome _ _ _ (fun pr hpr => ⟨(hdec pr hpr).1, (hdec pr hpr).2.1⟩)
  refine ⟨dataGym_printable_lookup,
    ⟨dataGym_remaining_length, dataGym_remaining_lookup⟩, ?_, ?_⟩
  · obtain ⟨bp, hbp⟩ := Option.isSome_iff_exists.mp hadd
    rw [Option.isSome_iff_exists]
    refine ⟨bp, (data_gym_some_iff jsonParse (.ok contents) encoderJsonFetched bp).mpr
      ⟨hbp, hjson⟩⟩
  · intro t ht
    have ht' : dataGymAddMerges bpeRanksBase bpeRanksBase.length
        (dataGymParseMerges contents) = some t :=
      ((data_gym_some_iff jsonParse (.ok contents) encoderJsonFetched t).mp ht).1
    constructor
    · intro b hb
      have hpres := dataGymAddMerges_lookup_preserved _ _ _ [b] t ht'
        (fun pr hpr =>
          dataGymMergeKey_ne_single (hdec pr hpr).1 (hdec pr hpr).2.1
            (hdec pr hpr).2.2.1 (hdec pr hpr).2.2.2)
      rw [hpres]
      exact bpeRanksBase_single_lookup b hb
    · intro i hi
      have := dataGymAddMerges_lookup_nth _ _ _ i t ht' hnodup (List.mem_range.mp hi)
      rw [this, bpeRanksBase_length]

theorem claim_C7_witness :
    (data_gym_to_mergeable_bpe_ranks (fun _ => none) (.ok "#version\na b")
      (.ok "")).isSome = true :=
  (claim_C7_data_gym_tables "#version\na b" (fun _ => none) (.ok "")
    (by rw [dataGymByteToByte_eq]; decide)
    (by decide)
    (by decide)).2.2.1

theorem newBuild_ok_specialTokens {param : EncodingParam} {fns : CoreBPEFns} {m : Nat}
    {e : Encoding} (h : Encoding.newBuild param fns m = .ok e) :
    e.specialTokens = param.specialTokens := by
  unfold Encoding.newBuild at h
  cases hc : CoreBPE.new param.mergeableRanks param.specialTokens param.patStr fns with
  | none =>
    rw [hc] at h
    cases h
  | some r =>
    rw [hc] at h
    cases r with
    | error e' => cases h
    | ok coreBpe =>
      cases h
      rfl

theorem new_ok_specialTokens {param : EncodingParam} {fns : CoreBPEFns} {e : Encoding}
    (h : Encoding.new param fns = .ok e) : e.specialTokens = param.specialTokens := by
  unfold Encoding.new at h
  cases hv : param.explicitNVocab with
  | none =>
    rw [hv] at h
    exact newBuild_ok_specialTokens h
  | some n =>
    rw [hv] at h
    have h' : (if param.mergeableRanks.length + param.specialTokens.length ≠ n then
          NewResult.panic
        else if n = 0 then NewResult.panic
        else if encodingMaxTokenValue param ≠ n - 1 then NewResult.panic
        else Encoding.newBuild param fns (encodingMaxTokenValue param)) = NewResult.ok e := h
    by_cases h1 : param.mergeableRanks.length + param.specialTokens.length ≠ n
    · rw [if_pos h1] at h'
      cases h'
    · rw [if_neg h1] at h'
      by_cases h2 : n = 0
      · rw [if_pos h2] at h'
        cases h'
      · rw [if_neg h2] at h'
        by_cases h3 : encodingMaxTokenValue param ≠ n - 1
        · rw [if_pos h3] at h'
          cases h'
        · rw [if_neg h3] at h'
          exact newBuild_ok_specialTokens h' 

/-- C10: `eot_token()` returns `some r` exactly when the special-token
table maps the literal `"<|endoftext|>"` to `r` (and `none` exactly when
the literal is absent); consequently every encoding constructed from one
of the five registry constructors has an end-of-text token: rank `50256`
for `gpt2`, `r50k_base`, `p50k_base` and `p50k_edit`, and rank `100257`
for `cl100k_base` (the constructed `Encoding` carries the constructor's
special-token table whatever mergeable ranks the loader fetched). -/
theorem claim_C10_eot_token (enc : Encoding) (r : Nat)
    (ranks : List (ByteSeq × Nat)) (fns : CoreBPEFns) (e : Encoding) :
    (enc.eotToken = some r ↔ alookup enc.specialTokens "<|endoftext|>" = some r) ∧
    (enc.eotToken = none ↔ "<|endoftext|>" ∉ enc.specialTokens.map Prod.fst) ∧
    (Encoding.new (gpt2 ranks) fns = .ok e → e.eotToken = some 50256) ∧
    (Encoding.new (r50k_base ranks) fns = .ok e → e.eotToken = some 50256) ∧
    (Encoding.new (p50k_base ranks) fns = .ok e → e.eotToken = some 50256) ∧
    (Encoding.new (p50k_edit ranks) fns = .ok e → e.eotToken = some 50256) ∧
    (Encoding.new (cl100k_base ranks) fns = .ok e → e.eotToken = some 100257) := by
  refine ⟨Iff.rfl, ?_, ?_, ?_, ?_, ?_, ?_⟩
  · rw [show enc.eotToken = alookup enc.specialTokens "<|endoftext|>" from rfl,
      alookup_eq_none_iff]
    simp only [List.mem_map, not_exists]
    constructor
    · intro hall p hp
      exact hall p hp.1 hp.2
    · intro hall p hp heq
      exact hall p ⟨hp, heq⟩
  all_goals
    intro h
    rw [show Encoding.eotToken e = alookup e.specialTokens "<|endoftext|>" from rfl,
      new_ok_specialTokens h]
    rfl

set_option maxRecDepth 40000 in
set_option maxHeartbeats 4000000 in
theorem claim_C10_witness : cEnc.eotToken = some 100257 :=
  (claim_C10_eot_token cEnc 0 fullByteRanks fns0 cEnc).2.2.2.2.2.2 rfl
